import Mathlib

/-!
Verification of the infra-kit coordination core (distributed lock manager and
sliding-window rate limiter) against its specification.

The TypeScript source is shallowly embedded: the Redis store is modelled as a
function from keys to values, time is an explicit parameter (epoch
milliseconds), asynchronous functions that may throw become `Except String`
valued functions, and the per-call randomness (`Math.random()`) is an explicit
numeric argument.  Redis key expiry is modelled by storing an absolute expiry
timestamp together with each lock value and treating an entry as absent once
the current time reaches its expiry.
-/

namespace InfraKit

/-! ## Lock store model

A Redis string key used by the lock module holds a token value plus an
absolute expiry time (set via the PX option of SET).  A stored entry is
visible to GET only while `now < expiry`; at or after `expiry` Redis reports
the key as absent. -/

structure LockEntry where
  value : String
  expiry : Nat
deriving Repr, DecidableEq

def LockStore : Type := String → Option LockEntry

def lockStoreEmpty : LockStore := fun _ => none

def lupdate (s : LockStore) (k : String) (v : Option LockEntry) : LockStore :=
  fun k2 => if k2 = k then v else s k2

/-- Redis GET as seen by the Lua scripts: an entry is returned only while it
has not expired. -/
def getLock (s : LockStore) (now : Nat) (k : String) : Option String :=
  match s k with
  | some e => if now < e.expiry then some e.value else none
  | none => none

/-- Redis `SET key value PX ttl NX`: succeeds exactly when the key currently
holds no unexpired value, in which case the value is stored with expiry
`now + ttl`. -/
def setNX (s : LockStore) (now : Nat) (k v : String) (ttl : Nat) :
    Bool × LockStore :=
  match getLock s now k with
  | some _ => (false, s)
  | none => (true, lupdate s k (some ⟨v, now + ttl⟩))

/-! ## Token generation

The source builds each lock token as
`Date.now() + "-" + Math.random().toString(36).substring(2)`:
the current timestamp in decimal, a dash, then a base-36 rendering of one
`Math.random()` draw.  `Math.random()` returns a double of the form
`r / 2^53` with `r < 2^53`, so the suffix is a function of a value with at
most `2^53` possibilities; `tokenSuffix` renders that draw in base 36. -/

def mathRandomSpace : Nat := 2 ^ 53

def tokenSuffix (r : Nat) : String :=
  (Nat.toDigits 36 r).asString

def mkToken (now r : Nat) : String :=
  toString now ++ "-" ++ tokenSuffix r

/-! ## Lock options and TS default semantics

`options.ttl || 10000` in TypeScript substitutes the default exactly when the
field is absent or falsy (the number 0); any other value, including negative
numbers, is kept.  The same idiom is used for retries (default 0) and
retryDelay (default 100). -/

structure LockOptions where
  ttl : Option Int := none
  retries : Option Nat := none
  retryDelay : Option Nat := none

def intOrDefault (o : Option Int) (d : Int) : Int :=
  match o with
  | some t => if t = 0 then d else t
  | none => d

def natOrDefault (o : Option Nat) (d : Nat) : Nat :=
  match o with
  | some n => if n = 0 then d else n
  | none => d

/-! ## acquireLock -/

/-- Outcome of one run of the acquisition loop: the granted token (or none),
the store after all attempts, the number of `SET NX` attempts issued, and the
time at which the loop finished (the loop sleeps `retryDelay` between
consecutive failed attempts, never after the last one). -/
structure AcquireResult where
  token : Option String
  store : LockStore
  attempts : Nat
  endTime : Nat

/-- The retry loop of `acquireLock`: `for (let i = 0; i <= retries; i++)`
issues a `SET NX` attempt, returns the token on success, otherwise sleeps
`retryDelay` if attempts remain.  `fuel` is the number of attempts still
allowed (initially `retries + 1`). -/
def acquireLoop (k tok : String) (ttl retryDelay : Nat) :
    Nat → LockStore → Nat → AcquireResult
  | 0, s, now => ⟨none, s, 0, now⟩
  | fuel + 1, s, now =>
    let att := setNX s now k tok ttl
    if att.1 then ⟨some tok, att.2, 1, now⟩
    else if fuel = 0 then ⟨none, att.2, 1, now⟩
    else
      let r := acquireLoop k tok ttl retryDelay fuel att.2 (now + retryDelay)
      ⟨r.token, r.store, r.attempts + 1, r.endTime⟩

/-- `acquireLock(key, options)`: validates the key, generates the token from
the current time and one random draw, resolves the option defaults, rejects a
non-positive effective TTL, then runs the retry loop against `lock:<key>`. -/
def acquireLock (key : String) (opts : LockOptions) (s : LockStore)
    (now rnd : Nat) : Except String AcquireResult :=
  if key = "" then .error "Lock key must be a non-empty string"
  else
    let lockKey := "lock:" ++ key
    let tok := mkToken now rnd
    let ttl := intOrDefault opts.ttl 10000
    if ttl < 1 then .error "Lock TTL must be positive"
    else
      let retries := natOrDefault opts.retries 0
      let retryDelay := natOrDefault opts.retryDelay 100
      .ok (acquireLoop lockKey tok ttl.toNat retryDelay (retries + 1) s now)

/-! ## releaseLock / extendLock

Both run a Lua script that compares the current value of `lock:<key>` with
the presented token: on a match release deletes the key (DEL) and extend
pushes the expiry to `now + ttl` (PEXPIRE); on a mismatch, or when the key is
absent or expired, the script returns 0 and touches nothing.  Neither
function validates its arguments. -/

def releaseLock (key tok : String) (s : LockStore) (now : Nat) :
    Except String (Bool × LockStore) :=
  match getLock s now ("lock:" ++ key) with
  | some v =>
    if v = tok then .ok (true, lupdate s ("lock:" ++ key) none)
    else .ok (false, s)
  | none => .ok (false, s)

def extendLock (key tok : String) (ttl : Nat) (s : LockStore) (now : Nat) :
    Except String (Bool × LockStore) :=
  match getLock s now ("lock:" ++ key) with
  | some v =>
    if v = tok then
      .ok (true, lupdate s ("lock:" ++ key) (some ⟨tok, now + ttl⟩))
    else .ok (false, s)
  | none => .ok (false, s)

/-! ## withLock

`withLock` acquires, throws when no token was obtained, otherwise runs `fn`
inside try/finally, releasing the lock before the result or exception of
`fn` propagates.  The critical section is modelled by its outcome `fn` (a
value or a thrown error); `fnCalls` counts how often it was entered. -/

structure WithLockResult (α : Type) where
  result : Except String α
  store : LockStore
  fnCalls : Nat

def withLock {α : Type} (key : String) (fn : Except String α)
    (opts : LockOptions) (s : LockStore) (now rnd : Nat) : WithLockResult α :=
  match acquireLock key opts s now rnd with
  | .error e => ⟨.error e, s, 0⟩
  | .ok ar =>
    match ar.token with
    | none => ⟨.error ("Failed to acquire lock: " ++ key), ar.store, 0⟩
    | some tok =>
      match releaseLock key tok ar.store ar.endTime with
      | .ok (_, s2) => ⟨fn, s2, 1⟩
      | .error e => ⟨.error e, ar.store, 1⟩

/-- Projection used to observe the granted token of an acquisition result. -/
def tokenOf (r : Except String AcquireResult) : Option String :=
  match r with
  | .ok a => a.token
  | .error _ => none

/-! ## Rate limiter model

The rate window for `(key, identifier)` is a Redis sorted set (member,
score); the score is the admission timestamp in epoch milliseconds.
Timestamps are `Int` so that `now - window*1000` behaves as in JavaScript
(it may be negative).  The key-level `EXPIRE` refresh issued on admission
only garbage-collects idle windows and has no observable effect on the
properties below, so the model tracks the sorted-set contents. -/

def RateStore : Type := String → List (String × Int)

def rateStoreEmpty : RateStore := fun _ => []

def rupdate (s : RateStore) (k : String) (v : List (String × Int)) :
    RateStore :=
  fun k2 => if k2 = k then v else s k2

/-- `ZREMRANGEBYSCORE key 0 windowStart` removes every member whose score
lies in the closed interval `[0, windowStart]`; `pruneEntries` returns the
surviving members. -/
def pruneEntries (l : List (String × Int)) (windowStart : Int) :
    List (String × Int) :=
  l.filter (fun e => ¬ (0 ≤ e.2 ∧ e.2 ≤ windowStart))

/-- Score of the oldest member, as read by `ZRANGE key 0 0 WITHSCORES`
(the minimum score of the set). -/
def minScore : List (String × Int) → Option Int
  | [] => none
  | e :: es =>
    match minScore es with
    | none => some e.2
    | some m => some (min e.2 m)

/-- The oldest surviving score with the fallback used by the source
(`oldestRequest[1] ? parseInt(oldestRequest[1]) : now`). -/
def minScoreD (l : List (String × Int)) (dflt : Int) : Int :=
  match minScore l with
  | some t => t
  | none => dflt

/-- The store key of the window for `(key, identifier)`:
`ratelimit:<key>:<identifier>`. -/
def windowKey (optsKey identifier : String) : String :=
  "ratelimit:" ++ optsKey ++ ":" ++ identifier

structure RateLimitResult where
  allowed : Bool
  remaining : Int
  resetAt : Int
  retryAfter : Option Int
deriving Repr, DecidableEq

structure RateLimitOptions where
  limit : Int
  window : Int
  key : String

/-- Member string of a newly accepted entry: `now .. "-" .. math.random()`;
the random draw is modelled by the explicit `tag` argument. -/
def mkMember (now : Int) (tag : String) : String :=
  toString now ++ "-" ++ tag

/-- `checkRateLimit(identifier, {limit, window, key})`: validates the
arguments, then runs the atomic Lua transaction on
`ratelimit:<key>:<identifier>`: prune entries with score in
`[0, now - window*1000]`, count the survivors, accept (ZADD of a fresh
member at score `now`) exactly when `count < limit`.  On rejection the
oldest surviving score is read back to compute `retryAfter`. -/
def checkRateLimit (identifier : String) (opts : RateLimitOptions)
    (s : RateStore) (now : Int) (tag : String) :
    Except String (RateLimitResult × RateStore) :=
  if identifier = "" then .error "Identifier must be a non-empty string"
  else if opts.key = "" then .error "Options.key must be a non-empty string"
  else if opts.limit < 1 then .error "Options.limit must be a positive number"
  else if opts.window < 1 then
    .error "Options.window must be a positive number"
  else
    let key := windowKey opts.key identifier
    let windowStart := now - opts.window * 1000
    let pruned := pruneEntries (s key) windowStart
    let count : Int := pruned.length
    let resetAt := now + opts.window * 1000
    if count < opts.limit then
      let s2 := rupdate s key (pruned ++ [(mkMember now tag, now)])
      let remaining := max 0 (opts.limit - count - 1)
      .ok (⟨true, remaining, resetAt, none⟩, s2)
    else
      let s2 := rupdate s key pruned
      let oldest := minScoreD pruned now
      let retryAfter := max 0 (oldest + opts.window * 1000 - now)
      .ok (⟨false, 0, resetAt, some retryAfter⟩, s2)

/-- `resetRateLimit(identifier, key)`: one unconditional DEL of
`ratelimit:<key>:<identifier>`, with no argument validation. -/
def resetRateLimit (identifier key : String) (s : RateStore) :
    Except String RateStore :=
  .ok (rupdate s (windowKey key identifier) [])

/-- Projection of a rate-limit call: its result record, if it did not throw. -/
def rlResultOf (r : Except String (RateLimitResult × RateStore)) :
    Option RateLimitResult :=
  match r with
  | .ok (res, _) => some res
  | .error _ => none

/-- Projection of a rate-limit call: the stored window at `k` afterwards. -/
def rlWindowOf (r : Except String (RateLimitResult × RateStore)) (k : String) :
    Option (List (String × Int)) :=
  match r with
  | .ok (_, s) => some (s k)
  | .error _ => none

/-- Projection of an acquisition: the lock entry stored at `k` afterwards. -/
def lockStateOf (r : Except String AcquireResult) (k : String) :
    Option LockEntry :=
  match r with
  | .ok a => a.store k
  | .error _ => none

/-- Number of `SET NX` attempts an acquisition issued (0 when it threw). -/
def attemptsOf (r : Except String AcquireResult) : Nat :=
  match r with
  | .ok a => a.attempts
  | .error _ => 0

/-- Finish time of an acquisition (its start time plus all retry sleeps). -/
def endTimeOf (r : Except String AcquireResult) : Nat :=
  match r with
  | .ok a => a.endTime
  | .error _ => 0

/-- Whether a call completed without throwing. -/
def noThrow {ε α : Type} (r : Except ε α) : Bool :=
  match r with
  | .ok _ => true
  | .error _ => false

/-! ## Basic lemmas about the embedding -/

theorem intOrDefault_some (t d : Int) (h : t ≠ 0) :
    intOrDefault (some t) d = t := by
  simp [intOrDefault, h]

theorem natOrDefault_some (n d : Nat) (h : n ≠ 0) :
    natOrDefault (some n) d = n := by
  simp [natOrDefault, h]

theorem natOrDefault_some_zero (r : Nat) : natOrDefault (some r) 0 = r := by
  cases r <;> simp [natOrDefault]

theorem getLock_of_entry (s : LockStore) (now : Nat) (k : String)
    (e : LockEntry) (hs : s k = some e) (h : now < e.expiry) :
    getLock s now k = some e.value := by
  simp [getLock, hs, h]

/-- While a key holds an unexpired entry, every `SET NX` on it fails and the
store is untouched. -/
theorem setNX_fail (s : LockStore) (now : Nat) (k v tok : String) (ttl : Nat)
    (h : getLock s now k = some v) : setNX s now k tok ttl = (false, s) := by
  simp [setNX, h]

theorem releaseLock_noThrow (k t : String) (s : LockStore) (n : Nat) :
    noThrow (releaseLock k t s n) = true := by
  unfold releaseLock
  cases hg : getLock s n ("lock:" ++ k) with
  | none => rfl
  | some v => by_cases h : v = t <;> simp [h, noThrow]

theorem extendLock_noThrow (k t : String) (ttl : Nat) (s : LockStore)
    (n : Nat) : noThrow (extendLock k t ttl s n) = true := by
  unfold extendLock
  cases hg : getLock s n ("lock:" ++ k) with
  | none => rfl
  | some v => by_cases h : v = t <;> simp [h, noThrow]

/-- A concrete store in which `lock:res` is held by token `tokA` until
time 100000. -/
def lockHeld : LockStore :=
  lupdate lockStoreEmpty "lock:res" (some ⟨"tokA", 100000⟩)

/-- One unfolding step of the retry loop. -/
theorem acquireLoop_succ (k tok : String) (ttl d fuel : Nat) (s : LockStore)
    (now : Nat) :
    acquireLoop k tok ttl d (fuel + 1) s now =
      if (setNX s now k tok ttl).1 then
        ⟨some tok, (setNX s now k tok ttl).2, 1, now⟩
      else if fuel = 0 then ⟨none, (setNX s now k tok ttl).2, 1, now⟩
      else
        ⟨(acquireLoop k tok ttl d fuel (setNX s now k tok ttl).2
            (now + d)).token,
         (acquireLoop k tok ttl d fuel (setNX s now k tok ttl).2
            (now + d)).store,
         (acquireLoop k tok ttl d fuel (setNX s now k tok ttl).2
            (now + d)).attempts + 1,
         (acquireLoop k tok ttl d fuel (setNX s now k tok ttl).2
            (now + d)).endTime⟩ := rfl

/-- While the key holds an entry that stays unexpired through every retry,
the whole loop fails: all `fuel + 1` attempts are issued, each separated by
one `retryDelay` sleep, no token is produced, and the store is untouched. -/
theorem acquireLoop_held (k tok : String) (ttl d : Nat) (e : LockEntry) :
    ∀ (fuel : Nat) (s : LockStore) (now : Nat), s k = some e →
      now + fuel * d < e.expiry →
      acquireLoop k tok ttl d (fuel + 1) s now =
        ⟨none, s, fuel + 1, now + fuel * d⟩ := by
  intro fuel
  induction fuel with
  | zero =>
    intro s now hs h
    have hnow : now < e.expiry := by simpa using h
    have hg := getLock_of_entry s now k e hs hnow
    rw [acquireLoop_succ, setNX_fail s now k e.value tok ttl hg]
    simp
  | succ f ih =>
    intro s now hs h
    have hnow : now < e.expiry := lt_of_le_of_lt (Nat.le_add_right _ _) h
    have hg := getLock_of_entry s now k e hs hnow
    have harith : now + d + f * d = now + (f + 1) * d := by ring
    have hrec := ih s (now + d) hs (by rw [harith]; exact h)
    rw [acquireLoop_succ, setNX_fail s now k e.value tok ttl hg]
    simp [hrec, harith]

/-- The loop never issues more attempts than its fuel allows. -/
theorem acquireLoop_attempts_le (k tok : String) (ttl d : Nat) :
    ∀ (fuel : Nat) (s : LockStore) (now : Nat),
      (acquireLoop k tok ttl d fuel s now).attempts ≤ fuel := by
  intro fuel
  induction fuel with
  | zero => intro s now; simp [acquireLoop]
  | succ f ih =>
    intro s now
    rw [acquireLoop_succ]
    cases hb : (setNX s now k tok ttl).1
    · cases f with
      | zero => simp
      | succ f2 =>
        simpa using Nat.succ_le_succ (ih ((setNX s now k tok ttl).2) (now + d))
    · simp

/-- When the loop ends without a token it has spent all its fuel, issuing
`fuel + 1` attempts with one `retryDelay` sleep between consecutive attempts
and none after the last. -/
theorem acquireLoop_none (k tok : String) (ttl d : Nat) :
    ∀ (fuel : Nat) (s : LockStore) (now : Nat),
      (acquireLoop k tok ttl d (fuel + 1) s now).token = none →
      (acquireLoop k tok ttl d (fuel + 1) s now).attempts = fuel + 1 ∧
      (acquireLoop k tok ttl d (fuel + 1) s now).endTime = now + fuel * d := by
  intro fuel
  induction fuel with
  | zero =>
    intro s now htok
    rw [acquireLoop_succ] at htok ⊢
    cases hb : (setNX s now k tok ttl).1
    · simp
    · rw [hb] at htok
      simp at htok
  | succ f ih =>
    intro s now htok
    rw [acquireLoop_succ] at htok ⊢
    cases hb : (setNX s now k tok ttl).1
    · rw [hb] at htok
      simp only [Bool.false_eq_true, if_false, Nat.succ_ne_zero] at htok ⊢
      have hrec := ih ((setNX s now k tok ttl).2) (now + d) htok
      refine ⟨by rw [hrec.1], ?_⟩
      rw [hrec.2]
      ring
    · rw [hb] at htok
      simp at htok

theorem rupdate_self (s : RateStore) (k : String) (v : List (String × Int)) :
    rupdate s k v k = v := by
  simp [rupdate]

/-- The minimum score is the score of some member. -/
theorem minScore_mem (l : List (String × Int)) :
    ∀ m, minScore l = some m → ∃ e ∈ l, e.2 = m := by
  induction l with
  | nil => intro m h; simp [minScore] at h
  | cons e es ih =>
    intro m h
    cases hm : minScore es with
    | none =>
      rw [show minScore (e :: es) = some e.2 from by simp [minScore, hm]] at h
      exact ⟨e, by simp, Option.some.inj h⟩
    | some m2 =>
      rw [show minScore (e :: es) = some (min e.2 m2) from by
        simp [minScore, hm]] at h
      have hmm := Option.some.inj h
      rcases le_total e.2 m2 with hle | hle
      · refine ⟨e, by simp, ?_⟩
        rw [← hmm, min_eq_left hle]
      · obtain ⟨e2, hmem, hval⟩ := ih m2 hm
        refine ⟨e2, by simp [hmem], ?_⟩
        rw [← hmm, min_eq_right hle, hval]

/-- A non-empty window has a minimum score. -/
theorem minScore_isSome (l : List (String × Int)) (h : l ≠ []) :
    ∃ m, minScore l = some m := by
  cases l with
  | nil => exact absurd rfl h
  | cons e es =>
    cases hm : minScore es with
    | none => exact ⟨e.2, by simp [minScore, hm]⟩
    | some m2 => exact ⟨min e.2 m2, by simp [minScore, hm]⟩

/-- Membership in the pruned window: a member survives the
`ZREMRANGEBYSCORE key 0 windowStart` exactly when its score is outside
`[0, windowStart]`. -/
theorem mem_pruneEntries (l : List (String × Int)) (ws : Int)
    (e : String × Int) :
    e ∈ pruneEntries l ws ↔ e ∈ l ∧ ¬ (0 ≤ e.2 ∧ e.2 ≤ ws) := by
  simp [pruneEntries, List.mem_filter]
  intro _
  omega

/-- When all stored scores are non-negative, the minimum surviving score
lies strictly above the window start. -/
theorem pruneEntries_min_gt (l : List (String × Int)) (ws : Int)
    (hpos : ∀ e ∈ l, 0 ≤ e.2) (m : Int)
    (hm : minScore (pruneEntries l ws) = some m) : ws < m := by
  obtain ⟨e, hmem, hval⟩ := minScore_mem (pruneEntries l ws) m hm
  rw [mem_pruneEntries] at hmem
  have h0 : 0 ≤ e.2 := hpos e hmem.1
  have h2 := hmem.2
  omega

/-- A concrete window with two entries accepted at times 1500 and 1800. -/
def rateTwo : RateStore :=
  rupdate rateStoreEmpty "ratelimit:api:u" [("a", 1500), ("b", 1800)]

/-- A concrete window with a single entry exactly at the boundary
`now - window*1000` for `now = 2000, window = 1`. -/
def rateBoundary : RateStore :=
  rupdate rateStoreEmpty "ratelimit:api:u" [("e", 1000)]

/-- A successful `SET NX` stored the token with expiry `now + ttl`. -/
theorem setNX_true (s : LockStore) (now : Nat) (k v : String) (ttl : Nat)
    (h : (setNX s now k v ttl).1 = true) :
    (setNX s now k v ttl).2 k = some ⟨v, now + ttl⟩ := by
  unfold setNX at h ⊢
  cases hg : getLock s now k
  · simp [hg, lupdate]
  · simp [hg] at h

/-- When the loop grants a token it is the one token generated for this
call, and the store then holds it at `k` with expiry `endTime + ttl`. -/
theorem acquireLoop_some (k tok : String) (ttl d : Nat) :
    ∀ (fuel : Nat) (s : LockStore) (now : Nat) (x : String),
      (acquireLoop k tok ttl d fuel s now).token = some x →
      x = tok ∧
      (acquireLoop k tok ttl d fuel s now).store k =
        some ⟨tok, (acquireLoop k tok ttl d fuel s now).endTime + ttl⟩ := by
  intro fuel
  induction fuel with
  | zero => intro s now x h; simp [acquireLoop] at h
  | succ f ih =>
    intro s now x h
    cases hb : (setNX s now k tok ttl).1
    · rw [acquireLoop_succ] at h ⊢
      rw [hb] at h ⊢
      cases f with
      | zero => simp at h
      | succ f2 =>
        simp only [Bool.false_eq_true, if_false, Nat.succ_ne_zero] at h ⊢
        exact ih ((setNX s now k tok ttl).2) (now + d) x h
    · rw [acquireLoop_succ] at h ⊢
      rw [hb] at h ⊢
      simp only [if_true] at h ⊢
      refine ⟨by simpa using h.symm, ?_⟩
      exact setNX_true s now k tok ttl hb

/-! ## Claim theorems -/

/-- Claim C1: while `lock:<key>` holds an entry that stays unexpired through
the whole retry schedule, `acquireLock` grants no token: every set-if-absent
attempt fails, the call returns null once its retries are exhausted, and the
stored lock is left untouched. -/
theorem acquireLock_mutual_exclusion (key : String) (e : LockEntry) (t : Int)
    (r d : Nat) (s : LockStore) (now rnd : Nat) (hk : key ≠ "") (ht : 1 ≤ t)
    (hd : d ≠ 0) (hheld : s ("lock:" ++ key) = some e)
    (hvalid : now + r * d < e.expiry) :
    acquireLock key ⟨some t, some r, some d⟩ s now rnd =
      .ok ⟨none, s, r + 1, now + r * d⟩ := by
  have h0 : t ≠ 0 := by omega
  have hnlt : ¬ t < 1 := by omega
  have heq : acquireLock key ⟨some t, some r, some d⟩ s now rnd =
      .ok (acquireLoop ("lock:" ++ key) (mkToken now rnd) t.toNat d (r + 1)
        s now) := by
    simp only [acquireLock, intOrDefault_some t 10000 h0,
      natOrDefault_some_zero, natOrDefault_some d 100 hd, if_neg hk,
      if_neg hnlt]
  rw [heq,
    acquireLoop_held ("lock:" ++ key) (mkToken now rnd) t.toNat d e r s now
      hheld hvalid]

/-- Witness for C1: a held lock with a long TTL makes a three-attempt
acquisition fail without touching the store. -/
theorem acquireLock_mutual_exclusion_witness :
    ("res" : String) ≠ "" ∧ (1 : Int) ≤ 10000 ∧ (50 : Nat) ≠ 0 ∧
    lockHeld ("lock:" ++ "res") = some ⟨"tokA", 100000⟩ ∧
    5 + 2 * 50 < (⟨"tokA", 100000⟩ : LockEntry).expiry ∧
    acquireLock "res" ⟨some 10000, some 2, some 50⟩ lockHeld 5 7 =
      .ok ⟨none, lockHeld, 2 + 1, 5 + 2 * 50⟩ :=
  ⟨by decide, by decide, by decide, by decide, by decide,
    acquireLock_mutual_exclusion "res" ⟨"tokA", 100000⟩ 10000 2 50 lockHeld
      5 7 (by decide) (by decide) (by decide) (by decide) (by decide)⟩

/-- Claim C8: with `retries = r` the call makes at most `r + 1` set-if-absent
attempts, and when every attempt fails it returns null (not an error) after
exactly `r + 1` attempts, having slept `retryDelay` between consecutive
attempts only — its finish time is `now + r * retryDelay`. -/
theorem acquireLock_retry_budget (key : String) (t : Int) (r d : Nat)
    (s : LockStore) (now rnd : Nat) (hk : key ≠ "") (ht : 1 ≤ t)
    (hd : d ≠ 0) :
    noThrow (acquireLock key ⟨some t, some r, some d⟩ s now rnd) = true ∧
    attemptsOf (acquireLock key ⟨some t, some r, some d⟩ s now rnd) ≤ r + 1 ∧
    (tokenOf (acquireLock key ⟨some t, some r, some d⟩ s now rnd) = none →
      attemptsOf (acquireLock key ⟨some t, some r, some d⟩ s now rnd) =
        r + 1 ∧
      endTimeOf (acquireLock key ⟨some t, some r, some d⟩ s now rnd) =
        now + r * d) := by
  have h0 : t ≠ 0 := by omega
  have hnlt : ¬ t < 1 := by omega
  have heq : acquireLock key ⟨some t, some r, some d⟩ s now rnd =
      .ok (acquireLoop ("lock:" ++ key) (mkToken now rnd) t.toNat d (r + 1)
        s now) := by
    simp only [acquireLock, intOrDefault_some t 10000 h0,
      natOrDefault_some_zero, natOrDefault_some d 100 hd, if_neg hk,
      if_neg hnlt]
  rw [heq]
  refine ⟨rfl, ?_, ?_⟩
  · show (acquireLoop ("lock:" ++ key) (mkToken now rnd) t.toNat d (r + 1)
      s now).attempts ≤ r + 1
    exact acquireLoop_attempts_le _ _ _ _ _ _ _
  · intro htok
    have htok2 : (acquireLoop ("lock:" ++ key) (mkToken now rnd) t.toNat d
        (r + 1) s now).token = none := htok
    exact acquireLoop_none ("lock:" ++ key) (mkToken now rnd) t.toNat d r
      s now htok2

/-- Witness for C8: against a held lock, `retries = 2, retryDelay = 50`
makes exactly three attempts, finishing 100 ms after it started, and
returns null. -/
theorem acquireLock_retry_budget_witness :
    ("res" : String) ≠ "" ∧ (1 : Int) ≤ 10000 ∧ (50 : Nat) ≠ 0 ∧
    tokenOf (acquireLock "res" ⟨some 10000, some 2, some 50⟩ lockHeld 5 7) =
      none ∧
    attemptsOf (acquireLock "res" ⟨some 10000, some 2, some 50⟩ lockHeld 5 7)
      = 2 + 1 ∧
    endTimeOf (acquireLock "res" ⟨some 10000, some 2, some 50⟩ lockHeld 5 7)
      = 5 + 2 * 50 := by
  have h := (acquireLock_retry_budget "res" 10000 2 50 lockHeld 5 7
    (by decide) (by decide) (by decide)).2.2 (by decide)
  exact ⟨by decide, by decide, by decide, by decide, h.1, h.2⟩

/-- Claim C2 (code bug evidence): the token handed out by `acquireLock` is
the current timestamp in decimal, a dash, and a base-36 rendering of a single
`Math.random()` draw — the timestamp-plus-weak-random scheme the spec
forbids.  For a fixed timestamp the whole token space is the image of the at
most `2^53` possible draws, so it carries at most 53 bits of entropy, far
below the required 128. -/
theorem acquireLock_token_weak :
    tokenOf (acquireLock "res" {} lockStoreEmpty 1700000000000 7) =
      some (toString (1700000000000 : Nat) ++ "-" ++ tokenSuffix 7) ∧
    ((Finset.range mathRandomSpace).image (mkToken 1700000000000)).card <
      2 ^ 128 := by
  constructor
  · rfl
  · calc ((Finset.range mathRandomSpace).image (mkToken 1700000000000)).card
        ≤ (Finset.range mathRandomSpace).card := Finset.card_image_le
      _ = mathRandomSpace := Finset.card_range _
      _ < 2 ^ 128 := by norm_num [mathRandomSpace]

/-- Claim C7 counterexample: `acquireLock` with `ttl = 0` does not throw a
validation error; the `options.ttl || 10000` idiom treats 0 as absent, so the
call proceeds and stores a lock with the default 10000 ms TTL. -/
theorem acquireLock_ttl_zero_defaults :
    tokenOf (acquireLock "res" { ttl := some 0 } lockStoreEmpty 5 7) =
      some (mkToken 5 7) ∧
    lockStateOf (acquireLock "res" { ttl := some 0 } lockStoreEmpty 5 7)
      "lock:res" = some ⟨mkToken 5 7, 5 + 10000⟩ :=
  ⟨rfl, rfl⟩

/-- Claim C7 (amended): for every `options.ttl` value below 1 other than 0
(which the `||` default replaces by 10000), `acquireLock` fails with the TTL
validation error, uniformly in the store — hence before any store access. -/
theorem acquireLock_ttl_validation (key : String) (t : Int)
    (retr rd : Option Nat) (s : LockStore) (now rnd : Nat) (hk : key ≠ "")
    (h1 : t < 1) (h0 : t ≠ 0) :
    acquireLock key ⟨some t, retr, rd⟩ s now rnd =
      .error "Lock TTL must be positive" := by
  simp [acquireLock, hk, intOrDefault, h0, h1]

/-- Witness for the amended C7 theorem at `ttl = -3`. -/
theorem acquireLock_ttl_validation_witness :
    ("res" : String) ≠ "" ∧ (-3 : Int) < 1 ∧ (-3 : Int) ≠ 0 ∧
    acquireLock "res" ⟨some (-3), none, none⟩ lockStoreEmpty 5 7 =
      .error "Lock TTL must be positive" :=
  ⟨by decide, by decide, by decide,
    acquireLock_ttl_validation "res" (-3) none none lockStoreEmpty 5 7
      (by decide) (by decide) (by decide)⟩

/-- Claim C5: release and extend are guarded by the token: when the current
(unexpired) value of `lock:<key>` differs from the presented token, or no
lock is stored, both return false and leave the store exactly as it was;
when it equals the token, release deletes the key and returns true, and
extend re-stores the token with expiry `now + ttl` and returns true. -/
theorem release_extend_token_guard (key tok : String) (ttl : Nat)
    (s : LockStore) (now : Nat) :
    (getLock s now ("lock:" ++ key) ≠ some tok →
      releaseLock key tok s now = .ok (false, s) ∧
      extendLock key tok ttl s now = .ok (false, s)) ∧
    (getLock s now ("lock:" ++ key) = some tok →
      releaseLock key tok s now = .ok (true, lupdate s ("lock:" ++ key) none) ∧
      extendLock key tok ttl s now =
        .ok (true, lupdate s ("lock:" ++ key) (some ⟨tok, now + ttl⟩))) := by
  constructor
  · intro h
    unfold releaseLock extendLock
    cases hg : getLock s now ("lock:" ++ key) with
    | none => exact ⟨rfl, rfl⟩
    | some v =>
      have hv : ¬ v = tok := fun hveq => h (hveq ▸ hg)
      simp [hv]
  · intro h
    unfold releaseLock extendLock
    rw [h]
    simp

/-- Witness for C5: a wrong token is rejected without touching the store, the
matching token releases and extends. -/
theorem release_extend_token_guard_witness :
    (getLock lockHeld 5 ("lock:" ++ "res") ≠ some "tokB" ∧
      releaseLock "res" "tokB" lockHeld 5 = .ok (false, lockHeld) ∧
      extendLock "res" "tokB" 77 lockHeld 5 = .ok (false, lockHeld)) ∧
    (getLock lockHeld 5 ("lock:" ++ "res") = some "tokA" ∧
      releaseLock "res" "tokA" lockHeld 5 =
        .ok (true, lupdate lockHeld ("lock:" ++ "res") none) ∧
      extendLock "res" "tokA" 77 lockHeld 5 =
        .ok (true, lupdate lockHeld ("lock:" ++ "res") (some ⟨"tokA", 5 + 77⟩))) :=
  ⟨⟨by decide, (release_extend_token_guard "res" "tokB" 77 lockHeld 5).1 (by decide)⟩,
    ⟨by decide, (release_extend_token_guard "res" "tokA" 77 lockHeld 5).2 (by decide)⟩⟩

/-- Claim C6: with a valid key and TTL, `withLock` runs the critical section
exactly once and releases the lock on every exit path when acquisition
succeeds — the outcome of `fn` (normal value or thrown error) is propagated
unchanged and afterwards no valid lock remains on the key at any time —
while on acquisition failure it throws the acquisition-failure error and
never runs `fn`. -/
theorem withLock_scoped {α : Type} (key : String) (fn : Except String α)
    (t : Int) (retr rd : Option Nat) (s : LockStore) (now rnd : Nat)
    (hk : key ≠ "") (ht : 1 ≤ t) :
    (tokenOf (acquireLock key ⟨some t, retr, rd⟩ s now rnd) ≠ none →
      (withLock key fn ⟨some t, retr, rd⟩ s now rnd).result = fn ∧
      (withLock key fn ⟨some t, retr, rd⟩ s now rnd).fnCalls = 1 ∧
      ∀ u, getLock (withLock key fn ⟨some t, retr, rd⟩ s now rnd).store u
        ("lock:" ++ key) = none) ∧
    (tokenOf (acquireLock key ⟨some t, retr, rd⟩ s now rnd) = none →
      (withLock key fn ⟨some t, retr, rd⟩ s now rnd).result =
        .error ("Failed to acquire lock: " ++ key) ∧
      (withLock key fn ⟨some t, retr, rd⟩ s now rnd).fnCalls = 0) := by
  have h0 : t ≠ 0 := by omega
  have hnlt : ¬ t < 1 := by omega
  have htn : 1 ≤ t.toNat := by omega
  have heq : acquireLock key ⟨some t, retr, rd⟩ s now rnd =
      .ok (acquireLoop ("lock:" ++ key) (mkToken now rnd) t.toNat
        (natOrDefault rd 100) (natOrDefault retr 0 + 1) s now) := by
    simp only [acquireLock, intOrDefault_some t 10000 h0, if_neg hk,
      if_neg hnlt]
  simp only [withLock, heq, tokenOf]
  cases hTok : (acquireLoop ("lock:" ++ key) (mkToken now rnd) t.toNat
      (natOrDefault rd 100) (natOrDefault retr 0 + 1) s now).token with
  | none =>
    constructor
    · intro hne
      exact absurd rfl hne
    · intro _
      exact ⟨rfl, rfl⟩
  | some tok =>
    have hsome := acquireLoop_some ("lock:" ++ key) (mkToken now rnd) t.toNat
      (natOrDefault rd 100) (natOrDefault retr 0 + 1) s now tok hTok
    have hget : getLock (acquireLoop ("lock:" ++ key) (mkToken now rnd)
        t.toNat (natOrDefault rd 100) (natOrDefault retr 0 + 1) s now).store
        (acquireLoop ("lock:" ++ key) (mkToken now rnd) t.toNat
          (natOrDefault rd 100) (natOrDefault retr 0 + 1) s now).endTime
        ("lock:" ++ key) = some (mkToken now rnd) :=
      getLock_of_entry _ _ _ _ hsome.2 (by simp; omega)
    have hrel : releaseLock key tok
        (acquireLoop ("lock:" ++ key) (mkToken now rnd) t.toNat
          (natOrDefault rd 100) (natOrDefault retr 0 + 1) s now).store
        (acquireLoop ("lock:" ++ key) (mkToken now rnd) t.toNat
          (natOrDefault rd 100) (natOrDefault retr 0 + 1) s now).endTime =
        .ok (true, lupdate
          (acquireLoop ("lock:" ++ key) (mkToken now rnd) t.toNat
            (natOrDefault rd 100) (natOrDefault retr 0 + 1) s now).store
          ("lock:" ++ key) none) := by
      unfold releaseLock
      rw [hget, hsome.1]
      simp
    constructor
    · intro _
      simp [hrel, getLock, lupdate]
    · intro habs
      exact absurd habs (by simp)

/-- Witness for C6: on an empty store the acquisition succeeds, a throwing
critical section propagates its error, the section ran once, and the lock is
free again afterwards. -/
theorem withLock_scoped_witness :
    tokenOf (acquireLock "res" ⟨some 10000, none, none⟩ lockStoreEmpty 5 7) ≠
      none ∧
    (withLock "res" (Except.error "boom" : Except String Nat)
      ⟨some 10000, none, none⟩ lockStoreEmpty 5 7).result =
      Except.error "boom" ∧
    (withLock "res" (Except.error "boom" : Except String Nat)
      ⟨some 10000, none, none⟩ lockStoreEmpty 5 7).fnCalls = 1 ∧
    getLock (withLock "res" (Except.error "boom" : Except String Nat)
      ⟨some 10000, none, none⟩ lockStoreEmpty 5 7).store 99
      ("lock:" ++ "res") = none := by
  have h := (withLock_scoped "res"
    (Except.error "boom" : Except String Nat) 10000 none none lockStoreEmpty
    5 7 (by decide) (by decide)).1 (by decide)
  exact ⟨by decide, h.1, h.2.1, h.2.2 99⟩

/-- Claim C10: `resetRateLimit`, `releaseLock` and `extendLock` validate
nothing — with empty identifiers, keys and tokens and with a zero TTL they
never throw and go straight to the store (`resetRateLimit("","")` deletes
exactly the store key `ratelimit::`) — whereas `checkRateLimit` and
`acquireLock` reject an empty identifier or key before touching the store. -/
theorem no_validation_reset_release_extend (sr : RateStore) (sl : LockStore)
    (now ttl rnd : Nat) (nowi : Int) (ropts : RateLimitOptions)
    (lopts : LockOptions) (tag : String) :
    resetRateLimit "" "" sr = .ok (rupdate sr "ratelimit::" []) ∧
    noThrow (releaseLock "" "" sl now) = true ∧
    noThrow (extendLock "" "" ttl sl now) = true ∧
    noThrow (checkRateLimit "" ropts sr nowi tag) = false ∧
    noThrow (acquireLock "" lopts sl now rnd) = false :=
  ⟨rfl, releaseLock_noThrow "" "" sl now, extendLock_noThrow "" "" ttl sl now,
    rfl, rfl⟩

/-- Claim C3: on a valid call the result satisfies the spec formulas —
`resetAt = now + window*1000`,
`remaining = max(0, limit - count - (allowed?1:0))` where `count` is the
number of surviving entries the transaction counted, and on rejection
`retryAfter = oldestSurvivingTimestamp + window*1000 - now` (the stored
timestamps are non-negative, so the `Math.max(0, ...)` in the source is
inert). -/
theorem checkRateLimit_result_shape (identifier : String)
    (opts : RateLimitOptions) (s : RateStore) (now : Int) (tag : String)
    (hid : identifier ≠ "") (hk : opts.key ≠ "") (hl : 1 ≤ opts.limit)
    (hw : 1 ≤ opts.window)
    (hpos : ∀ e ∈ s (windowKey opts.key identifier), 0 ≤ e.2) :
    ∀ res s2, checkRateLimit identifier opts s now tag = .ok (res, s2) →
      res.resetAt = now + opts.window * 1000 ∧
      res.remaining = max 0 (opts.limit -
        (pruneEntries (s (windowKey opts.key identifier))
          (now - opts.window * 1000)).length -
        (if res.allowed then 1 else 0)) ∧
      (res.allowed = false →
        res.retryAfter = some (minScoreD
          (pruneEntries (s (windowKey opts.key identifier))
            (now - opts.window * 1000)) now + opts.window * 1000 - now)) := by
  intro res s2 h
  simp only [checkRateLimit, if_neg hid, if_neg hk,
    if_neg (show ¬ opts.limit < 1 by omega),
    if_neg (show ¬ opts.window < 1 by omega)] at h
  by_cases hcl : ((pruneEntries (s (windowKey opts.key identifier))
      (now - opts.window * 1000)).length : Int) < opts.limit
  · rw [if_pos hcl] at h
    injection h with h1
    injection h1 with hres hstore
    subst hres
    refine ⟨rfl, by simp, ?_⟩
    intro habs
    simp at habs
  · rw [if_neg hcl] at h
    injection h with h1
    injection h1 with hres hstore
    subst hres
    have hlen : 1 ≤ ((pruneEntries (s (windowKey opts.key identifier))
        (now - opts.window * 1000)).length : Int) := by omega
    have hne : pruneEntries (s (windowKey opts.key identifier))
        (now - opts.window * 1000) ≠ [] := by
      intro hnil
      rw [hnil] at hlen
      simp at hlen
    obtain ⟨m, hm⟩ := minScore_isSome _ hne
    have hgt := pruneEntries_min_gt _ _ hpos m hm
    have hmd : minScoreD (pruneEntries (s (windowKey opts.key identifier))
        (now - opts.window * 1000)) now = m := by
      simp [minScoreD, hm]
    refine ⟨rfl, by simp; omega, ?_⟩
    intro _
    simp only [hmd]
    have hmax : max 0 (m + opts.window * 1000 - now) =
        m + opts.window * 1000 - now := by omega
    exact congrArg some hmax

/-- Witness for C3: a full window (2 entries, limit 2) rejects with
`remaining = 0`, `resetAt = 3000` and `retryAfter = 500`. -/
theorem checkRateLimit_result_shape_witness :
    (⟨false, 0, 3000, some 500⟩ : RateLimitResult).resetAt =
      2000 + 1 * 1000 ∧
    (⟨false, 0, 3000, some 500⟩ : RateLimitResult).remaining =
      max 0 (2 - (pruneEntries (rateTwo (windowKey "api" "u"))
        (2000 - 1 * 1000)).length -
        (if (⟨false, 0, 3000, some 500⟩ : RateLimitResult).allowed
         then 1 else 0)) ∧
    ((⟨false, 0, 3000, some 500⟩ : RateLimitResult).allowed = false →
      (⟨false, 0, 3000, some 500⟩ : RateLimitResult).retryAfter =
        some (minScoreD (pruneEntries (rateTwo (windowKey "api" "u"))
          (2000 - 1 * 1000)) 2000 + 1 * 1000 - 2000)) :=
  checkRateLimit_result_shape "u" ⟨2, 1, "api"⟩ rateTwo 2000 "t"
    (by decide) (by decide) (by decide) (by decide) (by decide)
    ⟨false, 0, 3000, some 500⟩
    (rupdate rateTwo "ratelimit:api:u" [("a", 1500), ("b", 1800)]) rfl

/-- Claim C4 counterexample: with `now = 2000, window = 1` the entry stored
at timestamp exactly `now - window*1000 = 1000` is pruned by the
transaction rather than kept: `ZREMRANGEBYSCORE key 0 windowStart` removes
the closed interval.  With `limit = 1` the call is therefore accepted
(count 0), while the claim — under which the boundary entry survives and is
counted — would predict rejection; the resulting window no longer contains
the boundary entry. -/
theorem checkRateLimit_boundary_cex :
    rlResultOf (checkRateLimit "u" ⟨1, 1, "api"⟩ rateBoundary 2000 "t") =
      some ⟨true, 0, 3000, none⟩ ∧
    rlWindowOf (checkRateLimit "u" ⟨1, 1, "api"⟩ rateBoundary 2000 "t")
      "ratelimit:api:u" = some [(mkMember 2000 "t", 2000)] :=
  ⟨rfl, rfl⟩

/-- Claim C4 (amended): the transaction prunes exactly the entries whose
timestamp lies in the closed interval `[0, now - window*1000]`; a
(non-negative-timestamp) entry is counted iff its timestamp is strictly
greater than `now - window*1000`, and the stored window afterwards is the
surviving entries plus, on admission, the fresh entry at `now`. -/
theorem checkRateLimit_prune_boundary (identifier : String)
    (opts : RateLimitOptions) (s : RateStore) (now : Int) (tag : String)
    (hid : identifier ≠ "") (hk : opts.key ≠ "") (hl : 1 ≤ opts.limit)
    (hw : 1 ≤ opts.window) :
    ∀ res s2, checkRateLimit identifier opts s now tag = .ok (res, s2) →
      s2 (windowKey opts.key identifier) =
        (if res.allowed then
          pruneEntries (s (windowKey opts.key identifier))
            (now - opts.window * 1000) ++ [(mkMember now tag, now)]
         else pruneEntries (s (windowKey opts.key identifier))
            (now - opts.window * 1000)) ∧
      (∀ e ∈ s (windowKey opts.key identifier), 0 ≤ e.2 →
        (e ∈ pruneEntries (s (windowKey opts.key identifier))
            (now - opts.window * 1000) ↔
          now - opts.window * 1000 < e.2)) := by
  intro res s2 h
  simp only [checkRateLimit, if_neg hid, if_neg hk,
    if_neg (show ¬ opts.limit < 1 by omega),
    if_neg (show ¬ opts.window < 1 by omega)] at h
  constructor
  · by_cases hcl : ((pruneEntries (s (windowKey opts.key identifier))
        (now - opts.window * 1000)).length : Int) < opts.limit
    · rw [if_pos hcl] at h
      injection h with h1
      injection h1 with hres hstore
      subst hres
      rw [← hstore, rupdate_self]
      simp
    · rw [if_neg hcl] at h
      injection h with h1
      injection h1 with hres hstore
      subst hres
      rw [← hstore, rupdate_self]
      simp
  · intro e hmem hnn
    rw [mem_pruneEntries]
    constructor
    · intro hin
      have := hin.2
      omega
    · intro hgt
      exact ⟨hmem, by omega⟩

/-- Witness for the amended C4 theorem: for the boundary store the
post-transaction window is the fresh entry alone, and the boundary entry
(timestamp 1000 = windowStart) does not satisfy the survival criterion. -/
theorem checkRateLimit_prune_boundary_witness :
    ((rupdate rateBoundary "ratelimit:api:u" [(mkMember 2000 "t", 2000)])
      (windowKey "api" "u") =
      (if (⟨true, 0, 3000, none⟩ : RateLimitResult).allowed then
        pruneEntries (rateBoundary (windowKey "api" "u")) (2000 - 1 * 1000)
          ++ [(mkMember 2000 "t", 2000)]
       else pruneEntries (rateBoundary (windowKey "api" "u"))
        (2000 - 1 * 1000))) ∧
    (∀ e ∈ rateBoundary (windowKey "api" "u"), 0 ≤ e.2 →
      (e ∈ pruneEntries (rateBoundary (windowKey "api" "u"))
          (2000 - 1 * 1000) ↔ 2000 - 1 * 1000 < e.2)) :=
  checkRateLimit_prune_boundary "u" ⟨1, 1, "api"⟩ rateBoundary 2000 "t"
    (by decide) (by decide) (by decide) (by decide)
    ⟨true, 0, 3000, none⟩
    (rupdate rateBoundary "ratelimit:api:u" [(mkMember 2000 "t", 2000)]) rfl

/-- Claim C9: `resetRateLimit` unconditionally empties the window of its
scope and identifier, and the immediately following `checkRateLimit` on the
reset store accepts with `remaining = limit - 1` (for any `limit ≥ 1`). -/
theorem resetRateLimit_fresh (identifier key : String) (limit window : Int)
    (s : RateStore) (now : Int) (tag : String) (hid : identifier ≠ "")
    (hk : key ≠ "") (hl : 1 ≤ limit) (hw : 1 ≤ window) :
    resetRateLimit identifier key s =
      .ok (rupdate s (windowKey key identifier) []) ∧
    (rupdate s (windowKey key identifier) []) (windowKey key identifier) =
      [] ∧
    rlResultOf (checkRateLimit identifier ⟨limit, window, key⟩
      (rupdate s (windowKey key identifier) []) now tag) =
      some ⟨true, limit - 1, now + window * 1000, none⟩ := by
  refine ⟨rfl, rupdate_self s _ [], ?_⟩
  simp only [checkRateLimit, if_neg hid, if_neg hk,
    if_neg (show ¬ limit < 1 by omega), if_neg (show ¬ window < 1 by omega)]
  rw [show (rupdate s (windowKey key identifier) [])
    (windowKey (⟨limit, window, key⟩ : RateLimitOptions).key identifier) =
    [] from rupdate_self s _ []]
  rw [if_pos (show ((pruneEntries [] (now - window * 1000)).length : Int) <
    limit by simp [pruneEntries]; omega)]
  simp [rlResultOf, pruneEntries]
  omega

/-- Witness for C9: after a reset, a check with limit 5 and window 60
accepts with 4 remaining. -/
theorem resetRateLimit_fresh_witness :
    ("u" : String) ≠ "" ∧ ("api" : String) ≠ "" ∧ (1 : Int) ≤ 5 ∧
    (1 : Int) ≤ 60 ∧
    rlResultOf (checkRateLimit "u" ⟨5, 60, "api"⟩
      (rupdate rateTwo (windowKey "api" "u") []) 2000 "t") =
      some ⟨true, 5 - 1, 2000 + 60 * 1000, none⟩ := by
  have h := (resetRateLimit_fresh "u" "api" 5 60 rateTwo 2000 "t"
    (by decide) (by decide) (by decide) (by decide)).2.2
  exact ⟨by decide, by decide, by decide, by decide, h⟩

end InfraKit
